import Mathlib

/-!
Verification of the incremental synchronization engine and the dashboard
widgets of the Rugby-Data repository.

The synchronization engine (`update_data.py`) is documented in the
repository but its script is not among the provided source files, so the
engine components below are modelled from the specification text
(Remote Client, Identity Resolver, Record Validator, Diff Engine,
Merge Writer, Sync Orchestrator).  The match-predictor widget at the end
is embedded directly from `dashboard/js/rugby_charts.js`.
-/

namespace RugbyData

/-- Modelled from the spec: `MatchRecord` (§3), one fixture or result.
The script `update_data.py` holding the concrete record shape is missing
from the sources, so the fields follow the spec data model: identity
fields `date`, `home_team`, `away_team`; mutable nullable fields
`home_score`, `away_score`, `lineup`, `scoring_events`, `officials`,
`attendance`, `stadium`, `round`, `round_type`, `conference`; provenance
fields `competition_code`, `season_label`; plus the provider-internal
numeric id that the spec says must not be trusted for identity. -/
structure MatchRecord where
  date : String
  home_team : String
  away_team : String
  home_score : Option Int
  away_score : Option Int
  lineup : List String
  scoring_events : List String
  officials : List String
  attendance : Option Int
  stadium : Option String
  round : Option Int
  round_type : Option String
  conference : Option String
  competition_code : String
  season_label : String
  provider_id : Option Nat
deriving Repr, DecidableEq

/-- Modelled from the spec: `MatchSummary` (§4.1, §4.4), the listing-level
view of a match: identity fields, score state and the venue data a
summary carries, plus the untrusted provider id. -/
structure MatchSummary where
  date : String
  home_team : String
  away_team : String
  home_score : Option Int
  away_score : Option Int
  stadium : Option String
  provider_id : Option Nat
deriving Repr, DecidableEq

/-- Modelled from the spec: the separator used by the Identity Resolver,
"a separator not expected in team names" (§4.2). -/
def SEP : String := "|"

/-- Modelled from the spec: date normalization for identity, "date-only,
UTC" (§4.2): the date part of an ISO timestamp, everything before a
time marker. -/
def normalizeDate (d : String) : String :=
  String.mk (d.data.takeWhile (fun c => c ≠ 'T'))

/-- Modelled from the spec: the identity key built "by concatenating
normalized date (date-only, UTC) and the two team names in a fixed order
(home first) joined by a separator" (§4.2). -/
def identityKeyParts (date home away : String) : String :=
  normalizeDate date ++ SEP ++ home ++ SEP ++ away

/-- Modelled from the spec: `identityKey(record) -> string` (§4.2). -/
def identityKey (r : MatchRecord) : String :=
  identityKeyParts r.date r.home_team r.away_team

/-- Modelled from the spec: the identity key of a listing summary, built
by the same rule as for full records (§4.2, §4.4). -/
def summaryKey (s : MatchSummary) : String :=
  identityKeyParts s.date s.home_team s.away_team

/-- The natural key tuple `(date, home_team, away_team)` of §3, with the
date normalized as the Identity Resolver normalizes it. -/
def naturalKey (r : MatchRecord) : String × String × String :=
  (normalizeDate r.date, r.home_team, r.away_team)

/-- Lookup of a record in a dataset by identity key (§4.4). -/
def findByKey (ds : List MatchRecord) (k : String) : Option MatchRecord :=
  ds.find? (fun e => identityKey e == k)

/-- A record is a Result (glossary): both scores are known. -/
def hasResult (r : MatchRecord) : Bool :=
  r.home_score.isSome && r.away_score.isSome

/-- A summary "indicates a completed match" (§4.4): both scores known. -/
def summaryHasResult (s : MatchSummary) : Bool :=
  s.home_score.isSome && s.away_score.isSome

/-- The remote summary reports the same score as the existing record
(§4.4 case 4). -/
def sameScore (e : MatchRecord) (s : MatchSummary) : Bool :=
  e.home_score == s.home_score && e.away_score == s.away_score

/-- Modelled from the spec: the classification enum of §3,
`Classification ∈ {New, ResultAdded, Unchanged, Conflict}`. -/
inductive Classification where
  | New
  | ResultAdded
  | Unchanged
  | Conflict
deriving Repr, DecidableEq

/-- Modelled from the spec: the Diff Engine's four-case rule (§4.4) for
one remote summary: look the identity key up in the existing dataset;
not found is New; found with a null-score record is ResultAdded when the
summary carries a result and Unchanged when it does not; found with a
scored record is Unchanged when the summary reports the same score and
Conflict when it reports a different or null score. -/
def classifyOne (ds : List MatchRecord) (s : MatchSummary) :
    Option MatchRecord × Classification :=
  match findByKey ds (summaryKey s) with
  | none => (none, .New)
  | some e =>
    if hasResult e then
      if sameScore e s then (some e, .Unchanged) else (some e, .Conflict)
    else
      if summaryHasResult s then (some e, .ResultAdded) else (some e, .Unchanged)

/-- Modelled from the spec: a detail fetch is required exactly for New and
ResultAdded entries (§4.4). -/
def needsFetch : Classification → Bool
  | .New => true
  | .ResultAdded => true
  | .Unchanged => false
  | .Conflict => false

/-- Modelled from the spec: `classify(existingDataset, remoteSummaries) ->
SyncPlan`, the ordered list of
`(existing_record_or_none, remote_record, classification)` triples (§3, §4.4). -/
def classify (ds : List MatchRecord) (summaries : List MatchSummary) :
    List (Option MatchRecord × MatchSummary × Classification) :=
  summaries.map (fun s => ((classifyOne ds s).1, s, (classifyOne ds s).2))

/-- One orchestrated plan entry: the classification triple together with
the fetched detail record, present exactly when the classification
requires a detail fetch (§4.4, §4.6). -/
structure PlanEntry where
  existing : Option MatchRecord
  summary : MatchSummary
  cls : Classification
  detail : Option MatchRecord
deriving Repr, DecidableEq

/-- Modelled from the spec: the Orchestrator builds the plan by
classifying each listed summary and fetching detail only where the
classification requires it (§4.6). -/
def mkPlan (ds : List MatchRecord) (summaries : List MatchSummary)
    (fetch : MatchSummary → MatchRecord) : List PlanEntry :=
  summaries.map (fun s =>
    { existing := (classifyOne ds s).1
      summary := s
      cls := (classifyOne ds s).2
      detail := if needsFetch (classifyOne ds s).2 then some (fetch s) else none })

/-- Modelled from the spec: the validation error taxonomy, reporting the
failing field (§4.3, §7). -/
inductive ValidationError where
  | emptyDate
  | emptyHomeTeam
  | emptyAwayTeam
  | negativeHomeScore
  | negativeAwayScore
  | negativeAttendance
  | nonPositiveRound
deriving Repr, DecidableEq

/-- Modelled from the spec: `validate(record) -> Ok | Err(ValidationError)`
(§4.3): `date`, `home_team`, `away_team` non-empty; scores, when present,
non-negative integers; `attendance`, when present, a non-negative
integer; `round`, when present, a positive integer. -/
def validate (r : MatchRecord) : Except ValidationError Unit :=
  if r.date = "" then .error .emptyDate
  else if r.home_team = "" then .error .emptyHomeTeam
  else if r.away_team = "" then .error .emptyAwayTeam
  else if (r.home_score.getD 0) < 0 then .error .negativeHomeScore
  else if (r.away_score.getD 0) < 0 then .error .negativeAwayScore
  else if (r.attendance.getD 0) < 0 then .error .negativeAttendance
  else if (r.round.getD 1) ≤ 0 then .error .nonPositiveRound
  else .ok ()

/-- A record passes validation. -/
def validB (r : MatchRecord) : Bool :=
  match validate r with
  | .ok _ => true
  | .error _ => false

/-- Modelled from the spec: `ChangeSummary` totals additions,
result-completions, skips, and conflicts (§4.5, glossary). -/
structure ChangeSummary where
  additions : Nat
  completions : Nat
  skips : Nat
  conflicts : Nat
deriving Repr, DecidableEq

/-- The empty change summary a run starts from. -/
def emptySummary : ChangeSummary := ⟨0, 0, 0, 0⟩

/-- Modelled from the spec: insert or replace a record in the dataset
keyed by identity (§4.5). -/
def upsert (ds : List MatchRecord) (r : MatchRecord) : List MatchRecord :=
  if ds.any (fun e => identityKey e == identityKey r) then
    ds.map (fun e => if identityKey e == identityKey r then r else e)
  else
    ds ++ [r]

/-- Modelled from the spec: the Merge Writer's handling of one plan entry
(§4.5): New and ResultAdded validate the fetched detail and on success
insert or replace keyed by identity, on failure record a skip and leave
the dataset untouched for that key; Unchanged mutates nothing; Conflict
is not applied and is recorded for review. -/
def applyEntry (acc : List MatchRecord × ChangeSummary) (en : PlanEntry) :
    List MatchRecord × ChangeSummary :=
  match en.cls with
  | .Unchanged => acc
  | .Conflict => (acc.1, { acc.2 with conflicts := acc.2.conflicts + 1 })
  | .New =>
    match en.detail with
    | some d =>
      if validB d then (upsert acc.1 d, { acc.2 with additions := acc.2.additions + 1 })
      else (acc.1, { acc.2 with skips := acc.2.skips + 1 })
    | none => (acc.1, { acc.2 with skips := acc.2.skips + 1 })
  | .ResultAdded =>
    match en.detail with
    | some d =>
      if validB d then (upsert acc.1 d, { acc.2 with completions := acc.2.completions + 1 })
      else (acc.1, { acc.2 with skips := acc.2.skips + 1 })
    | none => (acc.1, { acc.2 with skips := acc.2.skips + 1 })

/-- Folding the Merge Writer over the whole plan (§4.5). -/
def applyPlan (ds : List MatchRecord) (plan : List PlanEntry) :
    List MatchRecord × ChangeSummary :=
  plan.foldl applyEntry (ds, emptySummary)

/-- Modelled from the spec: `apply(dataset, plan) -> (updatedDataset,
ChangeSummary)` with the dry-run branch point: "in dry-run mode, `apply`
computes and returns the same `ChangeSummary` but never mutates or
persists `dataset`; this is the only behavioral branch point for
dry-run" (§4.5). -/
def apply (ds : List MatchRecord) (plan : List PlanEntry) (dryRun : Bool) :
    List MatchRecord × ChangeSummary :=
  ((if dryRun then ds else (applyPlan ds plan).1), (applyPlan ds plan).2)

/-- Modelled from the spec: one orchestrated sync run for one
competition+season: list, classify, fetch conditionally, merge,
persist unless dry-run (§4.6). -/
def runSync (ds : List MatchRecord) (summaries : List MatchSummary)
    (fetch : MatchSummary → MatchRecord) (dryRun : Bool) :
    List MatchRecord × ChangeSummary :=
  apply ds (mkPlan ds summaries fetch) dryRun

/-- The dataset effect of one plan entry, the first component of
`applyEntry`: valid New and ResultAdded details are upserted, everything
else leaves the dataset as it is. -/
def dsStep (ds : List MatchRecord) (en : PlanEntry) : List MatchRecord :=
  match en.cls, en.detail with
  | .New, some d => if validB d then upsert ds d else ds
  | .ResultAdded, some d => if validB d then upsert ds d else ds
  | _, _ => ds

/-- The contribution of one plan entry to the change summary, the second
component of `applyEntry`. -/
def entryCounts (en : PlanEntry) : ChangeSummary :=
  match en.cls, en.detail with
  | .Unchanged, _ => ⟨0, 0, 0, 0⟩
  | .Conflict, _ => ⟨0, 0, 0, 1⟩
  | .New, some d => if validB d then ⟨1, 0, 0, 0⟩ else ⟨0, 0, 1, 0⟩
  | .New, none => ⟨0, 0, 1, 0⟩
  | .ResultAdded, some d => if validB d then ⟨0, 1, 0, 0⟩ else ⟨0, 0, 1, 0⟩
  | .ResultAdded, none => ⟨0, 0, 1, 0⟩

/-- Pointwise sum of change summaries. -/
def addCS (a b : ChangeSummary) : ChangeSummary :=
  ⟨a.additions + b.additions, a.completions + b.completions,
   a.skips + b.skips, a.conflicts + b.conflicts⟩

/-- Total change-summary contribution of a plan. -/
def planCounts (plan : List PlanEntry) : ChangeSummary :=
  plan.foldr (fun en acc => addCS (entryCounts en) acc) emptySummary

/-- The identity components of a record avoid the identity separator,
the situation the separator choice of §4.2 is designed for. -/
def sepFree (r : MatchRecord) : Prop :=
  '|' ∉ (normalizeDate r.date).data ∧ '|' ∉ r.home_team.data ∧ '|' ∉ r.away_team.data

instance (r : MatchRecord) : Decidable (sepFree r) := by
  unfold sepFree
  infer_instance

/-- Two records are "the same match" iff their identity keys are equal
(§4.2). -/
def sameMatch (r₁ r₂ : MatchRecord) : Prop :=
  identityKey r₁ = identityKey r₂

/-- The outcome one attempt of a remote request can have (§4.1): success,
a retryable transient fault (network/5xx/timeout), or a non-retryable
permanent fault (4xx other than rate-limit, malformed response). -/
inductive Outcome (α : Type) where
  | success (v : α)
  | transient
  | permanent
deriving Repr, DecidableEq

/-- The error a remote request surfaces to its caller (§4.1, §7). -/
inductive ClientError where
  | transientExhausted
  | permanentError
deriving Repr, DecidableEq

/-- The observable trace of one remote request: the surfaced result, the
number of attempts issued, and the backoff delays slept between
attempts. -/
structure Attempted (α : Type) where
  result : Except ClientError α
  attemptsMade : Nat
  sleeps : List Nat
deriving Repr

/-- Modelled from the spec: the Remote Client's bounded retry loop
(§4.1, §9): attempt number `attempt` of the same request, with
`remaining` attempts allowed; on success or `PermanentError` return
immediately; on `TransientError` sleep the exponentially growing delay
`baseDelay * 2 ^ attempt` and retry while attempts remain. -/
def requestAux {α : Type} (respond : Nat → Outcome α) (baseDelay : Nat) :
    Nat → Nat → Attempted α
  | _, 0 => ⟨.error .transientExhausted, 0, []⟩
  | attempt, remaining + 1 =>
    match respond attempt with
    | .success v => ⟨.ok v, 1, []⟩
    | .permanent => ⟨.error .permanentError, 1, []⟩
    | .transient =>
      if remaining = 0 then ⟨.error .transientExhausted, 1, []⟩
      else
        let rest := requestAux respond baseDelay (attempt + 1) remaining
        ⟨rest.result, rest.attemptsMade + 1, baseDelay * 2 ^ attempt :: rest.sleeps⟩

/-- Modelled from the spec: the fixed retry bound, "up to a fixed bound
(3 attempts)" (§4.1). -/
def maxAttempts : Nat := 3

/-- Modelled from the spec: one Remote Client request with retry and
exponential backoff (§4.1).  `respond` gives the remote outcome of each
attempt of the same request. -/
def request {α : Type} (respond : Nat → Outcome α) (baseDelay : Nat) :
    Attempted α :=
  requestAux respond baseDelay 0 maxAttempts

/-- The prediction object consumed by `renderMatchPredictorWidget` in
`dashboard/js/rugby_charts.js` (fields read by the widget). -/
structure Prediction where
  home_team : String
  away_team : String
  home_win_prob : ℚ
  away_win_prob : ℚ
  draw_prob : ℚ
  home_score_mean : ℚ
  away_score_mean : ℚ
deriving Repr, DecidableEq

/-- The favourite named by `renderMatchPredictorWidget`
(`rugby_charts.js:464`): the home team exactly when
`prediction.home_win_prob > 0.5`, the away team otherwise. -/
def favorite (p : Prediction) : String :=
  if p.home_win_prob > 1 / 2 then p.home_team else p.away_team

/-- The win percentage displayed by `renderMatchPredictorWidget`
(`rugby_charts.js:467`): `Math.max(home_win_prob, away_win_prob)`. -/
def winProb (p : Prediction) : ℚ :=
  max p.home_win_prob p.away_win_prob

/-- The point margin shown by the widget (`rugby_charts.js:468`). -/
def predMargin (p : Prediction) : ℚ :=
  |p.home_score_mean - p.away_score_mean|

/-- The confidence adverb chosen by the widget (`rugby_charts.js:470`). -/
def confidenceWord (p : Prediction) : String :=
  if winProb p > 85 / 100 then "heavily"
  else if winProb p > 70 / 100 then "strongly"
  else "slightly"

/-- A baseline fixture record used as a concrete test input. -/
def sampleFixture : MatchRecord :=
  { date := "2024-09-20"
    home_team := "Leinster"
    away_team := "Munster"
    home_score := none
    away_score := none
    lineup := []
    scoring_events := []
    officials := []
    attendance := none
    stadium := some "Aviva Stadium"
    round := some 1
    round_type := none
    conference := none
    competition_code := "urc"
    season_label := "2024-2025"
    provider_id := some 101 }

/-- A baseline result record used as a concrete test input. -/
def sampleResult : MatchRecord :=
  { sampleFixture with
    date := "2024-09-27"
    home_team := "Glasgow"
    away_team := "Edinburgh"
    home_score := some 20
    away_score := some 15
    provider_id := some 102 }

/-- A listing summary matching `sampleResult` by identity but reporting a
null score: the regression scenario of §8. -/
def regressionSummary : MatchSummary :=
  { date := "2024-09-27"
    home_team := "Glasgow"
    away_team := "Edinburgh"
    home_score := none
    away_score := none
    stadium := none
    provider_id := some 9102 }

/-- A detail-fetch stub for concrete runs: completes the summary into a
full record carrying the summary's identity and scores. -/
def fetchStub (s : MatchSummary) : MatchRecord :=
  { date := s.date
    home_team := s.home_team
    away_team := s.away_team
    home_score := s.home_score
    away_score := s.away_score
    lineup := ["player"]
    scoring_events := []
    officials := []
    attendance := none
    stadium := s.stadium
    round := none
    round_type := none
    conference := none
    competition_code := "urc"
    season_label := "2024-2025"
    provider_id := s.provider_id }

/-- A listing summary reporting the completed result of
`sampleFixture`: the concrete scenario of §8. -/
def completedSummary : MatchSummary :=
  { date := "2024-09-20"
    home_team := "Leinster"
    away_team := "Munster"
    home_score := some 28
    away_score := some 13
    stadium := some "Aviva Stadium"
    provider_id := some 2101 }

/-- A New plan entry carrying a fetched detail, for concrete runs. -/
def newEntry (r : MatchRecord) : PlanEntry :=
  { existing := none
    summary := completedSummary
    cls := .New
    detail := some r }

/-- A record failing validation: a negative home score. -/
def invalidRecord : MatchRecord :=
  { sampleFixture with home_score := some (-1) }

/-- The change summary is a neutral element for pointwise sum. -/
theorem addCS_empty (a : ChangeSummary) : addCS a emptySummary = a := by
  cases a
  simp [addCS, emptySummary]

/-- Pointwise sum of change summaries is associative. -/
theorem addCS_assoc (a b c : ChangeSummary) :
    addCS (addCS a b) c = addCS a (addCS b c) := by
  cases a
  cases b
  cases c
  simp [addCS, Nat.add_assoc]

/-- The dataset component of the Merge Writer step is `dsStep`. -/
theorem applyEntry_fst (acc : List MatchRecord × ChangeSummary) (en : PlanEntry) :
    (applyEntry acc en).1 = dsStep acc.1 en := by
  rcases en with ⟨ex, s, cls, det⟩
  cases cls <;> cases det <;>
    simp only [applyEntry, dsStep] <;> split <;> rfl

/-- The summary component of the Merge Writer step adds `entryCounts`. -/
theorem applyEntry_snd (acc : List MatchRecord × ChangeSummary) (en : PlanEntry) :
    (applyEntry acc en).2 = addCS acc.2 (entryCounts en) := by
  rcases acc with ⟨ds, cs⟩
  rcases cs with ⟨a, b, c, d⟩
  rcases en with ⟨ex, s, cls, det⟩
  cases cls <;> cases det <;>
    simp only [applyEntry, entryCounts, addCS] <;>
    first
      | simp [addCS]
      | (split <;> simp [addCS])

/-- The dataset produced by the Merge Writer fold ignores the running
counters. -/
theorem foldl_applyEntry_fst (plan : List PlanEntry) :
    ∀ (ds : List MatchRecord) (cs : ChangeSummary),
      (plan.foldl applyEntry (ds, cs)).1 = plan.foldl dsStep ds := by
  induction plan with
  | nil => intro ds cs; rfl
  | cons en rest ih =>
    intro ds cs
    have h1 : applyEntry (ds, cs) en = ((applyEntry (ds, cs) en).1, (applyEntry (ds, cs) en).2) := rfl
    calc ((en :: rest).foldl applyEntry (ds, cs)).1
        = (rest.foldl applyEntry (applyEntry (ds, cs) en)).1 := rfl
      _ = rest.foldl dsStep (applyEntry (ds, cs) en).1 := by
            rw [h1]; exact ih _ _
      _ = rest.foldl dsStep (dsStep ds en) := by rw [applyEntry_fst]
      _ = (en :: rest).foldl dsStep ds := rfl

/-- The change summary produced by the Merge Writer fold is the running
counter plus the total contribution of the plan. -/
theorem foldl_applyEntry_snd (plan : List PlanEntry) :
    ∀ (ds : List MatchRecord) (cs : ChangeSummary),
      (plan.foldl applyEntry (ds, cs)).2 = addCS cs (planCounts plan) := by
  induction plan with
  | nil => intro ds cs; simp [planCounts, addCS_empty]
  | cons en rest ih =>
    intro ds cs
    have h1 : applyEntry (ds, cs) en = ((applyEntry (ds, cs) en).1, (applyEntry (ds, cs) en).2) := rfl
    have hstep : ((en :: rest).foldl applyEntry (ds, cs)).2
        = (rest.foldl applyEntry (applyEntry (ds, cs) en)).2 := rfl
    rw [hstep, h1, ih, applyEntry_snd, addCS_assoc]
    rfl

/-- Plan contributions add over plan concatenation. -/
theorem planCounts_append (p q : List PlanEntry) :
    planCounts (p ++ q) = addCS (planCounts p) (planCounts q) := by
  induction p with
  | nil =>
    have : planCounts ([] : List PlanEntry) = emptySummary := rfl
    simp only [List.nil_append, this]
    cases planCounts q
    simp [addCS, emptySummary]
  | cons en rest ih =>
    have h1 : planCounts ((en :: rest) ++ q) = addCS (entryCounts en) (planCounts (rest ++ q)) := rfl
    have h2 : planCounts (en :: rest) = addCS (entryCounts en) (planCounts rest) := rfl
    rw [h1, ih, h2, addCS_assoc]

/-- Replacing by key keeps every identity key of a record unchanged. -/
theorem identityKey_replace (r : MatchRecord) :
    identityKey ∘ (fun e => if identityKey e == identityKey r then r else e)
      = identityKey := by
  funext e
  simp only [Function.comp]
  by_cases h : identityKey e == identityKey r
  · have he : identityKey e = identityKey r := eq_of_beq h
    simp [h, he]
  · simp [h]

/-- Lookup in the replaced dataset is the replaced lookup result. -/
theorem findByKey_map_replace (ds : List MatchRecord) (r : MatchRecord) (k : String) :
    findByKey (ds.map (fun e => if identityKey e == identityKey r then r else e)) k
      = (findByKey ds k).map (fun e => if identityKey e == identityKey r then r else e) := by
  unfold findByKey
  rw [List.find?_map]
  have hfun : ((fun e => identityKey e == k) ∘
        fun e => if identityKey e == identityKey r then r else e)
      = fun e => identityKey e == k := by
    funext e
    have h := congrFun (identityKey_replace r) e
    simp only [Function.comp] at h ⊢
    rw [h]
  rw [hfun]

/-- Upserting a record with a different key does not change a lookup. -/
theorem findByKey_upsert_ne (ds : List MatchRecord) (r : MatchRecord) (k : String)
    (h : identityKey r ≠ k) :
    findByKey (upsert ds r) k = findByKey ds k := by
  unfold upsert
  split
  · rw [findByKey_map_replace]
    cases hf : findByKey ds k with
    | none => rfl
    | some e =>
      have hf2 : ds.find? (fun x => identityKey x == k) = some e := hf
      have hp := List.find?_some hf2
      have hek : identityKey e = k := eq_of_beq hp
      have hne : (identityKey e == identityKey r) = false := by
        rw [hek]
        exact beq_eq_false_iff_ne.mpr fun hkr => h hkr.symm
      simp [hne]
      intro hc
      exact absurd hc (beq_eq_false_iff_ne.mp hne)
  · unfold findByKey
    rw [List.find?_append]
    cases hf : ds.find? (fun e => identityKey e == k) with
    | some e => rfl
    | none =>
      have : ([r].find? (fun e => identityKey e == k)) = none := by
        simp [List.find?, beq_eq_false_iff_ne.mpr h]
      simp [this]

/-- Upserting a record makes it the lookup result at its own key. -/
theorem findByKey_upsert_self (ds : List MatchRecord) (r : MatchRecord) :
    findByKey (upsert ds r) (identityKey r) = some r := by
  unfold upsert
  split
  case isTrue hany =>
    rw [findByKey_map_replace]
    have hsome : (findByKey ds (identityKey r)).isSome := by
      unfold findByKey
      rw [List.find?_isSome]
      exact List.any_eq_true.mp hany
    cases hf : findByKey ds (identityKey r) with
    | none => rw [hf] at hsome; simp at hsome
    | some e =>
      have hf2 : ds.find? (fun x => identityKey x == identityKey r) = some e := hf
      have hp := List.find?_some hf2
      simp [hp]
      intro hc
      exact absurd (eq_of_beq hp) hc
  case isFalse hany =>
    unfold findByKey
    rw [List.find?_append]
    have hany2 : ds.any (fun e => identityKey e == identityKey r) = false := by
      simp only [Bool.not_eq_true] at hany
      exact hany
    have hnone : ds.find? (fun e => identityKey e == identityKey r) = none := by
      rw [List.find?_eq_none]
      intro e he
      have h1 := List.any_eq_false.mp hany2 e he
      simpa using h1
    simp [hnone, List.find?]

/-- A record whose key differs from the upserted key stays in the
dataset. -/
theorem mem_upsert_of_ne (ds : List MatchRecord) (r e : MatchRecord)
    (hmem : e ∈ ds) (hne : identityKey e ≠ identityKey r) : e ∈ upsert ds r := by
  unfold upsert
  split
  · have : (if identityKey e == identityKey r then r else e) = e := by
      simp [beq_eq_false_iff_ne.mpr hne]
    rw [← this]
    exact List.mem_map_of_mem _ hmem
  · exact List.mem_append.mpr (Or.inl hmem)

/-- Every member of an upserted dataset is an old member or the upserted
record. -/
theorem mem_upsert_elim (ds : List MatchRecord) (r x : MatchRecord)
    (hx : x ∈ upsert ds r) : x ∈ ds ∨ x = r := by
  unfold upsert at hx
  split at hx
  · rcases List.exists_of_mem_map hx with ⟨e, he, hxe⟩
    by_cases h : identityKey e == identityKey r
    · right; rw [← hxe]; simp [h]
    · left
      have : (if identityKey e == identityKey r then r else e) = e := by simp [h]
      rw [← hxe, this]
      exact he
  · rcases List.mem_append.mp hx with h | h
    · exact Or.inl h
    · right; simpa using h

/-- With pairwise distinct keys, lookup by the key of a member returns
that member. -/
theorem findByKey_of_nodup (ds : List MatchRecord) (e : MatchRecord)
    (hnd : (ds.map identityKey).Nodup) (hmem : e ∈ ds) :
    findByKey ds (identityKey e) = some e := by
  induction ds with
  | nil => cases hmem
  | cons h t ih =>
    rcases List.mem_cons.mp hmem with rfl | hmt
    · unfold findByKey
      simp [List.find?]
    · have hnd' : (t.map identityKey).Nodup := (List.nodup_cons.mp hnd).2
      have hnot : identityKey h ∉ t.map identityKey := (List.nodup_cons.mp hnd).1
      have hne : (identityKey h == identityKey e) = false := by
        refine beq_eq_false_iff_ne.mpr fun hk => hnot ?_
        rw [hk]
        exact List.mem_map_of_mem _ hmt
      unfold findByKey
      simp only [List.find?, hne]
      exact ih hnd' hmt

/-- The key multiset is unchanged when the upsert replaces. -/
theorem keys_upsert_hit (ds : List MatchRecord) (r : MatchRecord)
    (hany : ds.any (fun e => identityKey e == identityKey r) = true) :
    (upsert ds r).map identityKey = ds.map identityKey := by
  unfold upsert
  rw [if_pos hany, List.map_map, identityKey_replace]

/-- The key list gains the new key when the upsert appends. -/
theorem keys_upsert_miss (ds : List MatchRecord) (r : MatchRecord)
    (hany : ds.any (fun e => identityKey e == identityKey r) = false) :
    (upsert ds r).map identityKey = ds.map identityKey ++ [identityKey r] := by
  unfold upsert
  rw [if_neg (by simp [hany]), List.map_append]
  rfl

/-- Upserting preserves distinctness of identity keys. -/
theorem nodup_keys_upsert (ds : List MatchRecord) (r : MatchRecord)
    (hnd : (ds.map identityKey).Nodup) :
    ((upsert ds r).map identityKey).Nodup := by
  cases hany : ds.any (fun e => identityKey e == identityKey r) with
  | true => rw [keys_upsert_hit ds r hany]; exact hnd
  | false =>
    rw [keys_upsert_miss ds r hany]
    rw [List.nodup_append]
    refine ⟨hnd, List.nodup_singleton _, ?_⟩
    intro k hk hk1
    have hkr : k = identityKey r := by simpa using hk1
    rcases List.exists_of_mem_map hk with ⟨e, he, hke⟩
    have h1 := List.any_eq_false.mp hany e he
    apply h1
    show (identityKey e == identityKey r) = true
    rw [hke, hkr]
    exact beq_self_eq_true _

/-- A plan entry whose detail key differs from `k` leaves the lookup at
`k` unchanged. -/
theorem findByKey_dsStep_ne (ds : List MatchRecord) (en : PlanEntry) (k : String)
    (h : ∀ d, en.detail = some d → identityKey d ≠ k) :
    findByKey (dsStep ds en) k = findByKey ds k := by
  rcases en with ⟨ex, s, cls, det⟩
  cases cls <;> cases det <;> simp only [dsStep]
  case New.some d =>
    split
    · exact findByKey_upsert_ne ds d k (h d rfl)
    · rfl
  case ResultAdded.some d =>
    split
    · exact findByKey_upsert_ne ds d k (h d rfl)
    · rfl

/-- Folding a plan none of whose detail keys is `k` leaves the lookup at
`k` unchanged. -/
theorem findByKey_foldl_ne (plan : List PlanEntry) :
    ∀ (ds : List MatchRecord) (k : String),
      (∀ en ∈ plan, ∀ d, en.detail = some d → identityKey d ≠ k) →
      findByKey (plan.foldl dsStep ds) k = findByKey ds k := by
  induction plan with
  | nil => intro ds k _; rfl
  | cons en rest ih =>
    intro ds k h
    have hstep : findByKey (dsStep ds en) k = findByKey ds k :=
      findByKey_dsStep_ne ds en k (h en (List.mem_cons_self en rest))
    have := ih (dsStep ds en) k (fun en2 hm => h en2 (List.mem_cons_of_mem en hm))
    calc findByKey ((en :: rest).foldl dsStep ds) k
        = findByKey (rest.foldl dsStep (dsStep ds en)) k := rfl
      _ = findByKey (dsStep ds en) k := this
      _ = findByKey ds k := hstep

/-- A record whose key no plan entry writes stays a member of the
dataset. -/
theorem mem_foldl_dsStep (plan : List PlanEntry) :
    ∀ (ds : List MatchRecord) (e : MatchRecord), e ∈ ds →
      (∀ en ∈ plan, ∀ d, en.detail = some d → identityKey d ≠ identityKey e) →
      e ∈ plan.foldl dsStep ds := by
  induction plan with
  | nil => intro ds e he _; exact he
  | cons en rest ih =>
    intro ds e he h
    have hstep : e ∈ dsStep ds en := by
      rcases en with ⟨ex, s, cls, det⟩
      cases cls <;> cases det <;> simp only [dsStep]
      case New.some d =>
        split
        · exact mem_upsert_of_ne ds d e he
            (fun hk => h _ (List.mem_cons_self _ rest) d rfl hk.symm)
        · exact he
      case ResultAdded.some d =>
        split
        · exact mem_upsert_of_ne ds d e he
            (fun hk => h _ (List.mem_cons_self _ rest) d rfl hk.symm)
        · exact he
      all_goals exact he
    exact ih (dsStep ds en) e hstep (fun en2 hm => h en2 (List.mem_cons_of_mem en hm))

/-- Every member of the merged dataset is an original member or an
upserted detail of the plan. -/
theorem mem_foldl_dsStep_elim (plan : List PlanEntry) :
    ∀ (ds : List MatchRecord) (x : MatchRecord), x ∈ plan.foldl dsStep ds →
      x ∈ ds ∨ ∃ en ∈ plan, en.detail = some x := by
  induction plan with
  | nil => intro ds x hx; exact Or.inl hx
  | cons en rest ih =>
    intro ds x hx
    rcases ih (dsStep ds en) x hx with hstep | ⟨en2, hm, hd⟩
    · rcases en with ⟨ex, s, cls, det⟩
      cases cls <;> cases det <;> simp only [dsStep] at hstep
      case New.some d =>
        by_cases hv : validB d
        · rw [if_pos hv] at hstep
          rcases mem_upsert_elim ds d x hstep with hin | rfl
          · exact Or.inl hin
          · exact Or.inr ⟨_, List.mem_cons_self _ rest, rfl⟩
        · rw [if_neg hv] at hstep
          exact Or.inl hstep
      case ResultAdded.some d =>
        by_cases hv : validB d
        · rw [if_pos hv] at hstep
          rcases mem_upsert_elim ds d x hstep with hin | rfl
          · exact Or.inl hin
          · exact Or.inr ⟨_, List.mem_cons_self _ rest, rfl⟩
        · rw [if_neg hv] at hstep
          exact Or.inl hstep
      all_goals exact Or.inl hstep
    · exact Or.inr ⟨en2, List.mem_cons_of_mem en hm, hd⟩

/-- Merging preserves distinctness of identity keys. -/
theorem nodup_keys_foldl (plan : List PlanEntry) :
    ∀ (ds : List MatchRecord), (ds.map identityKey).Nodup →
      ((plan.foldl dsStep ds).map identityKey).Nodup := by
  induction plan with
  | nil => intro ds h; exact h
  | cons en rest ih =>
    intro ds h
    apply ih
    rcases en with ⟨ex, s, cls, det⟩
    cases cls <;> cases det <;> simp only [dsStep]
    case New.some d =>
      split
      · exact nodup_keys_upsert ds d h
      · exact h
    case ResultAdded.some d =>
      split
      · exact nodup_keys_upsert ds d h
      · exact h
    all_goals exact h

/-- Shape of a plan entry built by the Orchestrator. -/
theorem mem_mkPlan (ds : List MatchRecord) (summaries : List MatchSummary)
    (fetch : MatchSummary → MatchRecord) (en : PlanEntry)
    (hm : en ∈ mkPlan ds summaries fetch) :
    ∃ s ∈ summaries, en =
      { existing := (classifyOne ds s).1
        summary := s
        cls := (classifyOne ds s).2
        detail := if needsFetch (classifyOne ds s).2 then some (fetch s) else none } := by
  rcases List.mem_map.mp hm with ⟨s, hs, hen⟩
  exact ⟨s, hs, hen.symm⟩

/-- In an orchestrated plan with an identity-preserving fetch, every
fetched detail carries the key of its summary, and details exist only
for classifications that require a fetch. -/
theorem mkPlan_detail_key (ds : List MatchRecord) (summaries : List MatchSummary)
    (fetch : MatchSummary → MatchRecord)
    (hfetch : ∀ s, identityKey (fetch s) = summaryKey s)
    (en : PlanEntry) (hm : en ∈ mkPlan ds summaries fetch)
    (d : MatchRecord) (hd : en.detail = some d) :
    identityKey d = summaryKey en.summary ∧
      needsFetch (classifyOne ds en.summary).2 = true := by
  rcases mem_mkPlan ds summaries fetch en hm with ⟨s, _, rfl⟩
  simp only at hd ⊢
  by_cases hnf : needsFetch (classifyOne ds s).2 = true
  · rw [if_pos hnf] at hd
    have : d = fetch s := by injection hd with h; exact h.symm
    subst this
    exact ⟨hfetch s, hnf⟩
  · rw [if_neg hnf] at hd
    cases hd

/-- Classification result when the identity key is absent. -/
theorem classifyOne_none (ds : List MatchRecord) (s : MatchSummary)
    (h : findByKey ds (summaryKey s) = none) : classifyOne ds s = (none, .New) := by
  unfold classifyOne
  rw [h]

/-- Classification result when the identity key is present. -/
theorem classifyOne_some (ds : List MatchRecord) (s : MatchSummary) (e : MatchRecord)
    (h : findByKey ds (summaryKey s) = some e) :
    classifyOne ds s = (some e,
      if hasResult e then (if sameScore e s then .Unchanged else .Conflict)
      else (if summaryHasResult s then .ResultAdded else .Unchanged)) := by
  unfold classifyOne
  rw [h]
  by_cases h1 : hasResult e <;> by_cases h2 : sameScore e s <;>
    by_cases h3 : summaryHasResult s <;> simp [h1, h2, h3]

/-- A fetch is needed exactly for the New and ResultAdded cases. -/
theorem needsFetch_iff (c : Classification) :
    needsFetch c = true ↔ c = .New ∨ c = .ResultAdded := by
  cases c <;> simp [needsFetch]

/-- The empty summary is a left identity for pointwise sum. -/
theorem addCS_empty_left (a : ChangeSummary) : addCS emptySummary a = a := by
  cases a
  simp [addCS, emptySummary]

/-- The dataset a non-dry run persists is the plan folded over the
dataset. -/
theorem runSync_fst (ds : List MatchRecord) (summaries : List MatchSummary)
    (fetch : MatchSummary → MatchRecord) :
    (runSync ds summaries fetch false).1 = (mkPlan ds summaries fetch).foldl dsStep ds := by
  show (applyPlan ds (mkPlan ds summaries fetch)).1 = _
  unfold applyPlan
  rw [foldl_applyEntry_fst]

/-- The change summary of a run is the total plan contribution,
regardless of the dry-run flag. -/
theorem runSync_snd (ds : List MatchRecord) (summaries : List MatchSummary)
    (fetch : MatchSummary → MatchRecord) (dry : Bool) :
    (runSync ds summaries fetch dry).2 = planCounts (mkPlan ds summaries fetch) := by
  show (applyPlan ds (mkPlan ds summaries fetch)).2 = _
  unfold applyPlan
  rw [foldl_applyEntry_snd, addCS_empty_left]

/-- In a listing with pairwise distinct keys, the other summaries have a
key different from the distinguished one. -/
theorem summaryKey_ne_of_nodup (l1 l2 : List MatchSummary) (s : MatchSummary)
    (hnd : ((l1 ++ s :: l2).map summaryKey).Nodup) :
    ∀ s2 ∈ l1 ++ l2, summaryKey s2 ≠ summaryKey s := by
  rw [List.map_append, List.map_cons] at hnd
  have hmid := List.nodup_middle.mp hnd
  have hnotmem : summaryKey s ∉ l1.map summaryKey ++ l2.map summaryKey :=
    (List.nodup_cons.mp hmid).1
  intro s2 hs2 heq
  apply hnotmem
  rw [← heq, ← List.map_append]
  exact List.mem_map_of_mem _ hs2

/-- The dataset effect of an orchestrated plan entry: upsert the fetched
detail when the classification requires a fetch and the detail is valid,
otherwise nothing. -/
theorem dsStep_entry (ds2 ds : List MatchRecord) (s : MatchSummary)
    (fetch : MatchSummary → MatchRecord) :
    dsStep ds2
      { existing := (classifyOne ds s).1
        summary := s
        cls := (classifyOne ds s).2
        detail := if needsFetch (classifyOne ds s).2 then some (fetch s) else none }
      = if needsFetch (classifyOne ds s).2 && validB (fetch s)
        then upsert ds2 (fetch s) else ds2 := by
  cases hcls : (classifyOne ds s).2 <;>
    by_cases hv : validB (fetch s) <;>
      simp [dsStep, needsFetch, hv]

/-- Lookup after a non-dry run, at the key of a listed summary: the valid
fetched detail where a fetch was classified, the original lookup
otherwise. -/
theorem findByKey_after_run (ds : List MatchRecord) (summaries : List MatchSummary)
    (fetch : MatchSummary → MatchRecord)
    (hfetch : ∀ s2, identityKey (fetch s2) = summaryKey s2)
    (hnd : (summaries.map summaryKey).Nodup)
    (s : MatchSummary) (hs : s ∈ summaries) :
    findByKey (runSync ds summaries fetch false).1 (summaryKey s) =
      if needsFetch (classifyOne ds s).2 && validB (fetch s)
      then some (fetch s) else findByKey ds (summaryKey s) := by
  rcases List.append_of_mem hs with ⟨l1, l2, rfl⟩
  rw [runSync_fst]
  have hplan : mkPlan ds (l1 ++ s :: l2) fetch
      = mkPlan ds l1 fetch ++
        ({ existing := (classifyOne ds s).1
           summary := s
           cls := (classifyOne ds s).2
           detail := if needsFetch (classifyOne ds s).2 then some (fetch s) else none }
          :: mkPlan ds l2 fetch) := by
    unfold mkPlan
    rw [List.map_append, List.map_cons]
  rw [hplan, List.foldl_append]
  have hl1 : ∀ en ∈ mkPlan ds l1 fetch, ∀ d, en.detail = some d →
      identityKey d ≠ summaryKey s := by
    intro en hen d hd
    rcases mkPlan_detail_key ds l1 fetch hfetch en hen d hd with ⟨hk, _⟩
    rcases mem_mkPlan ds l1 fetch en hen with ⟨s2, hs2, rfl⟩
    rw [hk]
    exact summaryKey_ne_of_nodup l1 l2 s hnd s2 (List.mem_append.mpr (Or.inl hs2))
  have hD1 : findByKey ((mkPlan ds l1 fetch).foldl dsStep ds) (summaryKey s)
      = findByKey ds (summaryKey s) :=
    findByKey_foldl_ne (mkPlan ds l1 fetch) ds (summaryKey s) hl1
  have hl2 : ∀ en ∈ mkPlan ds l2 fetch, ∀ d, en.detail = some d →
      identityKey d ≠ summaryKey s := by
    intro en hen d hd
    rcases mkPlan_detail_key ds l2 fetch hfetch en hen d hd with ⟨hk, _⟩
    rcases mem_mkPlan ds l2 fetch en hen with ⟨s2, hs2, rfl⟩
    rw [hk]
    exact summaryKey_ne_of_nodup l1 l2 s hnd s2 (List.mem_append.mpr (Or.inr hs2))
  show findByKey ((mkPlan ds l2 fetch).foldl dsStep
      (dsStep ((mkPlan ds l1 fetch).foldl dsStep ds) _)) (summaryKey s) = _
  rw [findByKey_foldl_ne (mkPlan ds l2 fetch) _ (summaryKey s) hl2]
  rw [dsStep_entry]
  by_cases hcond : (needsFetch (classifyOne ds s).2 && validB (fetch s)) = true
  · rw [if_pos hcond, if_pos hcond]
    rw [← hfetch s]
    exact findByKey_upsert_self _ (fetch s)
  · rw [if_neg hcond, if_neg hcond]
    exact hD1

/-- Classification depends on the dataset only through the lookup at the
summary key. -/
theorem classifyOne_congr (ds1 ds2 : List MatchRecord) (s : MatchSummary)
    (h : findByKey ds1 (summaryKey s) = findByKey ds2 (summaryKey s)) :
    classifyOne ds1 s = classifyOne ds2 s := by
  unfold classifyOne
  rw [h]

/-- A summary classified Conflict is counted in the change summary of the
run, whether dry or not. -/
theorem conflict_counted (ds : List MatchRecord) (summaries : List MatchSummary)
    (fetch : MatchSummary → MatchRecord) (dry : Bool) (s : MatchSummary)
    (hs : s ∈ summaries) (hc : (classifyOne ds s).2 = .Conflict) :
    0 < (runSync ds summaries fetch dry).2.conflicts := by
  rcases List.append_of_mem hs with ⟨l1, l2, rfl⟩
  rw [runSync_snd]
  have hplan : mkPlan ds (l1 ++ s :: l2) fetch
      = mkPlan ds l1 fetch ++
        ({ existing := (classifyOne ds s).1
           summary := s
           cls := (classifyOne ds s).2
           detail := if needsFetch (classifyOne ds s).2 then some (fetch s) else none }
          :: mkPlan ds l2 fetch) := by
    unfold mkPlan
    rw [List.map_append, List.map_cons]
  rw [hplan, planCounts_append]
  have hcons : planCounts
      ({ existing := (classifyOne ds s).1
         summary := s
         cls := (classifyOne ds s).2
         detail := if needsFetch (classifyOne ds s).2 then some (fetch s) else none }
        :: mkPlan ds l2 fetch)
      = addCS (entryCounts
          { existing := (classifyOne ds s).1
            summary := s
            cls := (classifyOne ds s).2
            detail := if needsFetch (classifyOne ds s).2 then some (fetch s) else none })
          (planCounts (mkPlan ds l2 fetch)) := rfl
  rw [hcons]
  have hen : entryCounts
      { existing := (classifyOne ds s).1
        summary := s
        cls := (classifyOne ds s).2
        detail := if needsFetch (classifyOne ds s).2 then some (fetch s) else none }
      = (⟨0, 0, 0, 1⟩ : ChangeSummary) := by
    simp [entryCounts, hc, needsFetch]
  rw [hen]
  simp [addCS]

/-- If a run reports no conflicts, no listed summary classified
Conflict. -/
theorem no_conflict_of_zero (ds : List MatchRecord) (summaries : List MatchSummary)
    (fetch : MatchSummary → MatchRecord) (dry : Bool)
    (h : (runSync ds summaries fetch dry).2.conflicts = 0) :
    ∀ s ∈ summaries, (classifyOne ds s).2 ≠ .Conflict := by
  intro s hs hc
  have := conflict_counted ds summaries fetch dry s hs hc
  omega

/-- After a conflict-free run with a key- and score-consistent fetch and
a duplicate-free listing, re-classifying any listed summary yields
Unchanged, unless its detail was invalid, in which case the
classification is unchanged from the first run. -/
theorem second_run_classification (ds : List MatchRecord)
    (summaries : List MatchSummary) (fetch : MatchSummary → MatchRecord)
    (hfetch : ∀ s2, identityKey (fetch s2) = summaryKey s2)
    (hscores : ∀ s2, (fetch s2).home_score = s2.home_score ∧
      (fetch s2).away_score = s2.away_score)
    (hnd : (summaries.map summaryKey).Nodup)
    (hnoc : ∀ s2 ∈ summaries, (classifyOne ds s2).2 ≠ .Conflict)
    (s : MatchSummary) (hs : s ∈ summaries) :
    (classifyOne (runSync ds summaries fetch false).1 s).2 = .Unchanged ∨
      ((classifyOne (runSync ds summaries fetch false).1 s).2
          = (classifyOne ds s).2 ∧ validB (fetch s) = false) := by
  have hchar := findByKey_after_run ds summaries fetch hfetch hnd s hs
  by_cases hcond : (needsFetch (classifyOne ds s).2 && validB (fetch s)) = true
  · left
    rw [if_pos hcond] at hchar
    have hres : hasResult (fetch s) = summaryHasResult s := by
      unfold hasResult summaryHasResult
      rw [(hscores s).1, (hscores s).2]
    have hsame : sameScore (fetch s) s = true := by
      unfold sameScore
      rw [(hscores s).1, (hscores s).2]
      simp
    have := classifyOne_some (runSync ds summaries fetch false).1 s (fetch s) hchar
    rw [this]
    cases hsr : summaryHasResult s
    · rw [hsr] at hres
      simp [hres, hsr]
    · rw [hsr] at hres
      simp [hres, hsame]
  · rw [if_neg hcond] at hchar
    have hsamecls : classifyOne (runSync ds summaries fetch false).1 s = classifyOne ds s :=
      classifyOne_congr _ ds s hchar
    by_cases hnf : needsFetch (classifyOne ds s).2 = true
    · right
      refine ⟨by rw [hsamecls], ?_⟩
      cases hv : validB (fetch s)
      · rfl
      · exfalso
        apply hcond
        rw [hnf, hv]
        rfl
    · left
      rw [hsamecls]
      rcases hcls : (classifyOne ds s).2 with _ | _ | _ | _
      · rw [hcls] at hnf; simp [needsFetch] at hnf
      · rw [hcls] at hnf; simp [needsFetch] at hnf
      · rfl
      · exact absurd hcls (hnoc s hs)

/-- A plan whose entries contribute no additions, completions or
conflicts totals zero in those fields. -/
theorem planCounts_zero3 (plan : List PlanEntry)
    (h : ∀ en ∈ plan, (entryCounts en).additions = 0 ∧
      (entryCounts en).completions = 0 ∧ (entryCounts en).conflicts = 0) :
    (planCounts plan).additions = 0 ∧ (planCounts plan).completions = 0 ∧
      (planCounts plan).conflicts = 0 := by
  induction plan with
  | nil => exact ⟨rfl, rfl, rfl⟩
  | cons en rest ih =>
    have hcons : planCounts (en :: rest) = addCS (entryCounts en) (planCounts rest) := rfl
    have h1 := h en (List.mem_cons_self en rest)
    have h2 := ih (fun en2 hm => h en2 (List.mem_cons_of_mem en hm))
    rw [hcons]
    simp only [addCS]
    omega

/-- Splitting at a separator absent from both prefixes is unambiguous. -/
theorem append_sep_inj (sep : Char) :
    ∀ (a b : List Char), sep ∉ a → sep ∉ b →
      ∀ (x y : List Char), a ++ sep :: x = b ++ sep :: y → a = b ∧ x = y := by
  intro a
  induction a with
  | nil =>
    intro b ha hb x y h
    cases b with
    | nil => simpa using h
    | cons c bs =>
      simp only [List.nil_append, List.cons_append, List.cons.injEq] at h
      exact absurd (h.1 ▸ List.mem_cons_self c bs) hb
  | cons c as ih =>
    intro b ha hb x y h
    cases b with
    | nil =>
      simp only [List.nil_append, List.cons_append, List.cons.injEq] at h
      exact absurd (h.1 ▸ List.mem_cons_self c as) ha
    | cons c2 bs =>
      simp only [List.cons_append, List.cons.injEq] at h
      rcases h with ⟨rfl, h2⟩
      have ha2 : sep ∉ as := fun hm => ha (List.mem_cons_of_mem c hm)
      have hb2 : sep ∉ bs := fun hm => hb (List.mem_cons_of_mem c hm)
      rcases ih bs ha2 hb2 x y h2 with ⟨rfl, rfl⟩
      exact ⟨rfl, rfl⟩

/-- Character decomposition of an identity key. -/
theorem identityKeyParts_data (d h a : String) :
    (identityKeyParts d h a).data
      = (normalizeDate d).data ++ '|' :: (h.data ++ '|' :: a.data) := by
  unfold identityKeyParts SEP
  rw [String.data_append (normalizeDate d ++ "|" ++ h ++ "|") a,
    String.data_append (normalizeDate d ++ "|" ++ h) "|",
    String.data_append (normalizeDate d ++ "|") h,
    String.data_append (normalizeDate d) "|"]
  simp

/-- Identity keys built from separator-free components are equal exactly
when their components are. -/
theorem identityKeyParts_inj (d1 h1 a1 d2 h2 a2 : String)
    (hd1 : '|' ∉ (normalizeDate d1).data) (hh1 : '|' ∉ h1.data)
    (hd2 : '|' ∉ (normalizeDate d2).data) (hh2 : '|' ∉ h2.data)
    (heq : identityKeyParts d1 h1 a1 = identityKeyParts d2 h2 a2) :
    normalizeDate d1 = normalizeDate d2 ∧ h1 = h2 ∧ a1 = a2 := by
  have hdata := congrArg String.data heq
  rw [identityKeyParts_data, identityKeyParts_data] at hdata
  rcases append_sep_inj '|' (normalizeDate d1).data (normalizeDate d2).data hd1 hd2
      _ _ hdata with ⟨he1, hrest⟩
  rcases append_sep_inj '|' h1.data h2.data hh1 hh2 _ _ hrest with ⟨he2, he3⟩
  exact ⟨String.ext he1, String.ext he2, String.ext he3⟩

/-- For separator-free records, key equality coincides with natural-key
equality. -/
theorem identityKey_eq_iff (r1 r2 : MatchRecord)
    (h1 : sepFree r1) (h2 : sepFree r2) :
    identityKey r1 = identityKey r2 ↔ naturalKey r1 = naturalKey r2 := by
  constructor
  · intro h
    rcases identityKeyParts_inj r1.date r1.home_team r1.away_team
        r2.date r2.home_team r2.away_team h1.1 h1.2.1 h2.1 h2.2.1 h with ⟨e1, e2, e3⟩
    unfold naturalKey
    rw [e1, e2, e3]
  · intro h
    unfold naturalKey at h
    have e1 : normalizeDate r1.date = normalizeDate r2.date := congrArg Prod.fst h
    have e2 : r1.home_team = r2.home_team := congrArg (fun t => t.2.1) h
    have e3 : r1.away_team = r2.away_team := congrArg (fun t => t.2.2) h
    unfold identityKey identityKeyParts
    rw [e1, e2, e3]

/-- Natural-key equality always forces identity-key equality. -/
theorem identityKey_eq_of_naturalKey (r1 r2 : MatchRecord)
    (h : naturalKey r1 = naturalKey r2) : identityKey r1 = identityKey r2 := by
  unfold naturalKey at h
  have e1 : normalizeDate r1.date = normalizeDate r2.date := congrArg Prod.fst h
  have e2 : r1.home_team = r2.home_team := congrArg (fun t => t.2.1) h
  have e3 : r1.away_team = r2.away_team := congrArg (fun t => t.2.2) h
  unfold identityKey identityKeyParts
  rw [e1, e2, e3]

/-- Natural keys are pairwise distinct when identity keys are. -/
theorem nodup_natural_of_nodup_keys (ds : List MatchRecord)
    (h : (ds.map identityKey).Nodup) : (ds.map naturalKey).Nodup := by
  have h2 : ds.Pairwise (fun a b => identityKey a ≠ identityKey b) :=
    List.pairwise_map.mp h
  have h3 : ds.Pairwise (fun a b => naturalKey a ≠ naturalKey b) :=
    h2.imp (fun hne hk => hne (identityKey_eq_of_naturalKey _ _ hk))
  exact List.pairwise_map.mpr h3

/-- Identity keys are pairwise distinct when natural keys are, for
separator-free datasets. -/
theorem nodup_keys_of_nodup_natural (ds : List MatchRecord)
    (hsep : ∀ e ∈ ds, sepFree e)
    (h : (ds.map naturalKey).Nodup) : (ds.map identityKey).Nodup := by
  have h2 : ds.Pairwise (fun a b => naturalKey a ≠ naturalKey b) :=
    List.pairwise_map.mp h
  have h3 : ds.Pairwise (fun a b => identityKey a ≠ identityKey b) := by
    refine List.Pairwise.imp_of_mem ?_ h2
    intro a b ha hb hne hk
    exact hne ((identityKey_eq_iff a b (hsep a ha) (hsep b hb)).mp hk)
  exact List.pairwise_map.mpr h3

/-- Absence of a negative value in an optional integer, stated
elementwise. -/
theorem optInt_nonneg_iff (o : Option Int) :
    ¬ (o.getD 0 < 0) ↔ ∀ s, o = some s → 0 ≤ s := by
  cases o with
  | none => simp
  | some v =>
    simp only [Option.getD_some, not_lt]
    constructor
    · intro h s hs
      injection hs with hs
      omega
    · intro h
      exact h v rfl

/-- Positivity of an optional integer, stated elementwise. -/
theorem optInt_pos_iff (o : Option Int) :
    ¬ (o.getD 1 ≤ 0) ↔ ∀ n, o = some n → 0 < n := by
  cases o with
  | none => simp
  | some v =>
    simp only [Option.getD_some, not_le]
    constructor
    · intro h n hn
      injection hn with hn
      omega
    · intro h
      exact h v rfl

/-- The validator accepts exactly the records satisfying the §4.3
checks. -/
theorem validate_ok_iff (r : MatchRecord) :
    validate r = .ok () ↔
      (r.date ≠ "" ∧ r.home_team ≠ "" ∧ r.away_team ≠ "" ∧
        (∀ s, r.home_score = some s → 0 ≤ s) ∧
        (∀ s, r.away_score = some s → 0 ≤ s) ∧
        (∀ a, r.attendance = some a → 0 ≤ a) ∧
        (∀ n, r.round = some n → 0 < n)) := by
  unfold validate
  split_ifs with h1 h2 h3 h4 h5 h6 h7
  · simp only [false_iff]; intro hc; exact hc.1 h1
  · simp only [false_iff]; intro hc; exact hc.2.1 h2
  · simp only [false_iff]; intro hc; exact hc.2.2.1 h3
  · simp only [false_iff]; intro hc
    exact absurd hc.2.2.2.1 (by rw [← optInt_nonneg_iff]; simpa using h4)
  · simp only [false_iff]; intro hc
    exact absurd hc.2.2.2.2.1 (by rw [← optInt_nonneg_iff]; simpa using h5)
  · simp only [false_iff]; intro hc
    exact absurd hc.2.2.2.2.2.1 (by rw [← optInt_nonneg_iff]; simpa using h6)
  · simp only [false_iff]; intro hc
    exact absurd hc.2.2.2.2.2.2 (by rw [← optInt_pos_iff]; simpa using h7)
  · simp only [true_iff]
    exact ⟨h1, h2, h3, (optInt_nonneg_iff _).mp h4, (optInt_nonneg_iff _).mp h5,
      (optInt_nonneg_iff _).mp h6, (optInt_pos_iff _).mp h7⟩

/-- Additions counted by a plan: New entries with a valid detail. -/
theorem planCounts_additions (plan : List PlanEntry) :
    (planCounts plan).additions
      = plan.countP (fun en => en.cls == Classification.New &&
          (match en.detail with | some d => validB d | none => false)) := by
  induction plan with
  | nil => rfl
  | cons en rest ih =>
    have hcons : planCounts (en :: rest) = addCS (entryCounts en) (planCounts rest) := rfl
    rw [hcons, List.countP_cons]
    have hen : (entryCounts en).additions
        = if (en.cls == Classification.New &&
            (match en.detail with | some d => validB d | none => false)) = true
          then 1 else 0 := by
      rcases en with ⟨ex, s, cls, det⟩
      cases cls <;> cases det <;> simp only [entryCounts] <;>
        first
          | rfl
          | (split <;> simp_all [validB])
    simp only [addCS, ih, hen]
    omega

/-- Skips counted by a plan: fetch-classified entries without a valid
detail. -/
theorem planCounts_skips (plan : List PlanEntry) :
    (planCounts plan).skips
      = plan.countP (fun en => needsFetch en.cls &&
          !(match en.detail with | some d => validB d | none => false)) := by
  induction plan with
  | nil => rfl
  | cons en rest ih =>
    have hcons : planCounts (en :: rest) = addCS (entryCounts en) (planCounts rest) := rfl
    rw [hcons, List.countP_cons]
    have hen : (entryCounts en).skips
        = if (needsFetch en.cls &&
            !(match en.detail with | some d => validB d | none => false)) = true
          then 1 else 0 := by
      rcases en with ⟨ex, s, cls, det⟩
      cases cls <;> cases det <;> simp only [entryCounts, needsFetch] <;>
        first
          | rfl
          | (split <;> simp_all [validB])
    simp only [addCS, ih, hen]
    omega

/-- The summary of a Merge Writer call is the total plan contribution. -/
theorem apply_snd_counts (ds : List MatchRecord) (plan : List PlanEntry) (dry : Bool) :
    (RugbyData.apply ds plan dry).2 = planCounts plan := by
  show (applyPlan ds plan).2 = planCounts plan
  unfold applyPlan
  rw [foldl_applyEntry_snd, addCS_empty_left]

/-- C1: For every existing dataset and every remote summary, the Diff
Engine classifies by the four-case rule keyed on identity lookup and
score state: absent key is New; a found null-score record is ResultAdded
when the summary carries a result and Unchanged when it does not; a
found scored record is Unchanged when the summary reports the same score
and Conflict when it reports a different or null score; and a detail
fetch is issued only for New and ResultAdded entries, never for
Unchanged entries. -/
theorem diff_engine_classification :
    (∀ (ds : List MatchRecord) (s : MatchSummary),
      findByKey ds (summaryKey s) = none → (classifyOne ds s).2 = .New) ∧
    (∀ (ds : List MatchRecord) (s : MatchSummary) (e : MatchRecord),
      findByKey ds (summaryKey s) = some e → hasResult e = false →
        summaryHasResult s = true → (classifyOne ds s).2 = .ResultAdded) ∧
    (∀ (ds : List MatchRecord) (s : MatchSummary) (e : MatchRecord),
      findByKey ds (summaryKey s) = some e → hasResult e = false →
        summaryHasResult s = false → (classifyOne ds s).2 = .Unchanged) ∧
    (∀ (ds : List MatchRecord) (s : MatchSummary) (e : MatchRecord),
      findByKey ds (summaryKey s) = some e → hasResult e = true →
        sameScore e s = true → (classifyOne ds s).2 = .Unchanged) ∧
    (∀ (ds : List MatchRecord) (s : MatchSummary) (e : MatchRecord),
      findByKey ds (summaryKey s) = some e → hasResult e = true →
        sameScore e s = false → (classifyOne ds s).2 = .Conflict) ∧
    (∀ (ds : List MatchRecord) (summaries : List MatchSummary)
        (fetch : MatchSummary → MatchRecord) (en : PlanEntry),
      en ∈ mkPlan ds summaries fetch →
        (en.detail.isSome = true ↔ (en.cls = .New ∨ en.cls = .ResultAdded))) := by
  refine ⟨?_, ?_, ?_, ?_, ?_, ?_⟩
  · intro ds s h
    rw [classifyOne_none ds s h]
  · intro ds s e h h1 h2
    rw [classifyOne_some ds s e h]
    simp [h1, h2]
  · intro ds s e h h1 h2
    rw [classifyOne_some ds s e h]
    simp [h1, h2]
  · intro ds s e h h1 h2
    rw [classifyOne_some ds s e h]
    simp [h1, h2]
  · intro ds s e h h1 h2
    rw [classifyOne_some ds s e h]
    simp [h1, h2]
  · intro ds summaries fetch en hen
    rcases mem_mkPlan ds summaries fetch en hen with ⟨s, hs, rfl⟩
    show (if needsFetch (classifyOne ds s).2 = true then some (fetch s)
        else none).isSome = true ↔
      ((classifyOne ds s).2 = .New ∨ (classifyOne ds s).2 = .ResultAdded)
    by_cases hnf : needsFetch (classifyOne ds s).2 = true
    · rw [if_pos hnf]
      simpa using (needsFetch_iff _).mp hnf
    · rw [if_neg hnf]
      simp only [Option.isSome_none, Bool.false_eq_true, false_iff]
      intro hc
      exact hnf ((needsFetch_iff _).mpr hc)

/-- Witness for C1 at concrete inputs: an absent key classifies New, and
a null-score fixture with a completed summary classifies ResultAdded. -/
theorem diff_engine_classification_witness :
    (classifyOne [] completedSummary).2 = .New ∧
    (classifyOne [sampleFixture] completedSummary).2 = .ResultAdded :=
  ⟨diff_engine_classification.1 [] completedSummary rfl,
   diff_engine_classification.2.1 [sampleFixture] completedSummary sampleFixture
     (by decide) (by decide) (by decide)⟩

/-- C2: A record with non-null scores is terminal: a sync run never
replaces or nulls it — the lookup at its key is unchanged after the run,
and a remote summary for the same identity reporting a different or null
score classifies Conflict and is counted in the ChangeSummary. -/
theorem result_terminal (ds : List MatchRecord) (summaries : List MatchSummary)
    (fetch : MatchSummary → MatchRecord)
    (hfetch : ∀ s2, identityKey (fetch s2) = summaryKey s2)
    (hnd : (ds.map identityKey).Nodup)
    (e : MatchRecord) (he : e ∈ ds) (x y : Int)
    (hh : e.home_score = some x) (ha : e.away_score = some y) :
    findByKey (runSync ds summaries fetch false).1 (identityKey e) = some e ∧
      ∀ s ∈ summaries, summaryKey s = identityKey e →
        (s.home_score ≠ some x ∨ s.away_score ≠ some y) →
        (classifyOne ds s).2 = .Conflict ∧
          0 < (runSync ds summaries fetch false).2.conflicts := by
  have hfind : findByKey ds (identityKey e) = some e := findByKey_of_nodup ds e hnd he
  have hres : hasResult e = true := by
    unfold hasResult
    rw [hh, ha]
    rfl
  constructor
  · have hframe := findByKey_foldl_ne (mkPlan ds summaries fetch) ds (identityKey e) ?_
    · rw [runSync_fst, hframe]
      exact hfind
    · intro en hen d hd hcontr
      rcases mkPlan_detail_key ds summaries fetch hfetch en hen d hd with ⟨hk, hnf⟩
      have hk2 : summaryKey en.summary = identityKey e := by
        rw [← hk]
        exact hcontr
      have hfind2 : findByKey ds (summaryKey en.summary) = some e := by
        rw [hk2]
        exact hfind
      rw [classifyOne_some ds en.summary e hfind2] at hnf
      simp only [hres, if_true] at hnf
      by_cases hsc : sameScore e en.summary = true
      · simp [hsc, needsFetch] at hnf
      · simp only [Bool.not_eq_true] at hsc
        simp [hsc, needsFetch] at hnf
  · intro s hs hkey hdiff
    have hfind2 : findByKey ds (summaryKey s) = some e := by
      rw [hkey]
      exact hfind
    have hsame : sameScore e s = false := by
      unfold sameScore
      rcases hdiff with hd | hd
      · have hb : (e.home_score == s.home_score) = false := by
          rw [hh]
          exact beq_eq_false_iff_ne.mpr fun hc => hd hc.symm
        simp [hb]
      · have hb : (e.away_score == s.away_score) = false := by
          rw [ha]
          exact beq_eq_false_iff_ne.mpr fun hc => hd hc.symm
        simp [hb]
    have hcls : (classifyOne ds s).2 = .Conflict := by
      rw [classifyOne_some ds s e hfind2]
      simp [hres, hsame]
    exact ⟨hcls, conflict_counted ds summaries fetch false s hs hcls⟩

/-- Witness for C2: the scored Glasgow record survives a run whose
listing reports a null score for the same identity, and that summary is
a counted Conflict. -/
theorem result_terminal_witness :
    findByKey (runSync [sampleResult] [regressionSummary] fetchStub false).1
        (identityKey sampleResult) = some sampleResult ∧
      ∀ s ∈ [regressionSummary], summaryKey s = identityKey sampleResult →
        (s.home_score ≠ some 20 ∨ s.away_score ≠ some 15) →
        (classifyOne [sampleResult] s).2 = .Conflict ∧
          0 < (runSync [sampleResult] [regressionSummary] fetchStub false).2.conflicts :=
  result_terminal [sampleResult] [regressionSummary] fetchStub (fun _ => rfl)
    (by decide) sampleResult (by decide) 20 15 rfl rfl

/-- C3: Dry-run equivalence: `apply` in dry-run mode returns the same
ChangeSummary as the non-dry-run call on the same inputs, and the
dataset output is exactly the input dataset. -/
theorem dry_run_equivalence :
    (∀ (ds : List MatchRecord) (plan : List PlanEntry),
      RugbyData.apply ds plan true = (ds, (RugbyData.apply ds plan false).2)) ∧
    (∀ (ds : List MatchRecord) (summaries : List MatchSummary)
        (fetch : MatchSummary → MatchRecord),
      runSync ds summaries fetch true = (ds, (runSync ds summaries fetch false).2)) :=
  ⟨fun _ _ => rfl, fun _ _ _ => rfl⟩

/-- C4 counterexample: with an existing 20-15 result and an unchanged
remote listing that reports a null score for the same identity, the
second run still reports a conflict, so the second-run ChangeSummary is
not free of conflicts as the claim requires. -/
theorem sync_idempotence_counterexample :
    (runSync (runSync [sampleResult] [regressionSummary] fetchStub false).1
        [regressionSummary] fetchStub false).2.conflicts ≠ 0 := by
  decide

/-- C4 (amended): if the first run reports zero conflicts, the fetch
preserves the summary identity and scores, and the listing has pairwise
distinct keys, then a second run against unchanged remote data yields
zero additions, zero completions and zero conflicts; in particular a
merged ResultAdded entry re-classifies as Unchanged. -/
theorem sync_idempotent_amended (ds : List MatchRecord) (summaries : List MatchSummary)
    (fetch : MatchSummary → MatchRecord)
    (hfetch : ∀ s2, identityKey (fetch s2) = summaryKey s2)
    (hscores : ∀ s2, (fetch s2).home_score = s2.home_score ∧
      (fetch s2).away_score = s2.away_score)
    (hnd : (summaries.map summaryKey).Nodup)
    (hnoc : (runSync ds summaries fetch false).2.conflicts = 0) :
    ((runSync (runSync ds summaries fetch false).1 summaries fetch false).2.additions = 0 ∧
      (runSync (runSync ds summaries fetch false).1 summaries fetch false).2.completions = 0 ∧
      (runSync (runSync ds summaries fetch false).1 summaries fetch false).2.conflicts = 0) ∧
    ∀ s ∈ summaries, (classifyOne ds s).2 = .ResultAdded → validB (fetch s) = true →
      (classifyOne (runSync ds summaries fetch false).1 s).2 = .Unchanged := by
  have hnoc2 : ∀ s2 ∈ summaries, (classifyOne ds s2).2 ≠ .Conflict :=
    no_conflict_of_zero ds summaries fetch false hnoc
  have hsecond : ∀ s ∈ summaries,
      (classifyOne (runSync ds summaries fetch false).1 s).2 = .Unchanged ∨
        ((classifyOne (runSync ds summaries fetch false).1 s).2
            = (classifyOne ds s).2 ∧ validB (fetch s) = false) :=
    fun s hs => second_run_classification ds summaries fetch hfetch hscores hnd hnoc2 s hs
  constructor
  · rw [runSync_snd]
    apply planCounts_zero3
    intro en hen
    rcases mem_mkPlan _ summaries fetch en hen with ⟨s, hs, rfl⟩
    rcases hsecond s hs with hu | ⟨hsame2, hv⟩
    · simp [entryCounts, hu, needsFetch]
    · rcases hcls : (classifyOne (runSync ds summaries fetch false).1 s).2 with _ | _ | _ | _
      · simp [entryCounts, hcls, needsFetch, hv]
      · simp [entryCounts, hcls, needsFetch, hv]
      · simp [entryCounts, hcls, needsFetch]
      · rw [hcls] at hsame2
        exact absurd hsame2.symm (hnoc2 s hs)
  · intro s hs hra hv
    rcases hsecond s hs with hu | ⟨_, hv2⟩
    · exact hu
    · rw [hv] at hv2
      simp at hv2

/-- Witness for C4 (amended): a fixture completed by the remote listing
merges on the first run and the second run reports nothing new. -/
theorem sync_idempotent_amended_witness :
    ((runSync (runSync [sampleFixture] [completedSummary] fetchStub false).1
        [completedSummary] fetchStub false).2.additions = 0 ∧
      (runSync (runSync [sampleFixture] [completedSummary] fetchStub false).1
        [completedSummary] fetchStub false).2.completions = 0 ∧
      (runSync (runSync [sampleFixture] [completedSummary] fetchStub false).1
        [completedSummary] fetchStub false).2.conflicts = 0) ∧
    ∀ s ∈ [completedSummary], (classifyOne [sampleFixture] s).2 = .ResultAdded →
      validB (fetchStub s) = true →
      (classifyOne (runSync [sampleFixture] [completedSummary] fetchStub false).1 s).2
        = .Unchanged :=
  sync_idempotent_amended [sampleFixture] [completedSummary] fetchStub
    (fun _ => rfl) (fun _ => ⟨rfl, rfl⟩) (by decide) (by decide)

/-- C5: A transient fault is retried up to the fixed bound of 3 attempts
with exponentially growing backoff delays before failure surfaces; a
permanent fault surfaces immediately with no retry; a transient fault
followed by success is retried and succeeds on the second attempt. -/
theorem remote_client_retry :
    (∀ (α : Type) (respond : Nat → Outcome α) (b : Nat),
      respond 0 = .transient → respond 1 = .transient → respond 2 = .transient →
      request respond b = ⟨.error .transientExhausted, 3, [b, 2 * b]⟩) ∧
    (∀ (α : Type) (respond : Nat → Outcome α) (b : Nat),
      respond 0 = .permanent →
      request respond b = ⟨.error .permanentError, 1, []⟩) ∧
    (∀ (α : Type) (respond : Nat → Outcome α) (b : Nat) (v : α),
      respond 0 = .transient → respond 1 = .success v →
      request respond b = ⟨.ok v, 2, [b]⟩) := by
  refine ⟨?_, ?_, ?_⟩
  · intro α respond b h0 h1 h2
    unfold request maxAttempts requestAux
    rw [h0]
    simp only [requestAux, h1, h2]
    norm_num
    ring
  · intro α respond b h0
    unfold request maxAttempts requestAux
    rw [h0]
  · intro α respond b v h0 h1
    unfold request maxAttempts requestAux
    rw [h0]
    simp only [requestAux, h1]
    norm_num

/-- Witness for C5 at concrete responders. -/
theorem remote_client_retry_witness :
    request (fun _ => (Outcome.transient : Outcome Nat)) 5
        = ⟨.error .transientExhausted, 3, [5, 2 * 5]⟩ ∧
    request (fun _ => (Outcome.permanent : Outcome Nat)) 7
        = ⟨.error .permanentError, 1, []⟩ ∧
    request (fun n => if n = 0 then (Outcome.transient : Outcome Nat)
        else .success 42) 5 = ⟨.ok 42, 2, [5]⟩ :=
  ⟨remote_client_retry.1 Nat (fun _ => .transient) 5 rfl rfl rfl,
   remote_client_retry.2.1 Nat (fun _ => .permanent) 7 rfl,
   remote_client_retry.2.2 Nat (fun n => if n = 0 then .transient else .success 42)
     5 42 rfl rfl⟩

/-- C6: validate accepts exactly the records with non-empty date and
teams, non-negative scores and attendance when present, and positive
round when present; an invalid detail contributes a skip and never a
merge (additions count only valid New details, skips count exactly the
fetch-classified entries without a valid detail, and an invalid detail
leaves the dataset untouched), so one malformed record among valid ones
skips alone without aborting the run. -/
theorem record_validator :
    (∀ r : MatchRecord, validate r = .ok () ↔
      (r.date ≠ "" ∧ r.home_team ≠ "" ∧ r.away_team ≠ "" ∧
        (∀ s, r.home_score = some s → 0 ≤ s) ∧
        (∀ s, r.away_score = some s → 0 ≤ s) ∧
        (∀ a, r.attendance = some a → 0 ≤ a) ∧
        (∀ n, r.round = some n → 0 < n))) ∧
    (∀ (ds : List MatchRecord) (plan : List PlanEntry) (dry : Bool),
      (RugbyData.apply ds plan dry).2.additions
          = plan.countP (fun en => en.cls == Classification.New &&
              (match en.detail with | some d => validB d | none => false)) ∧
      (RugbyData.apply ds plan dry).2.skips
          = plan.countP (fun en => needsFetch en.cls &&
              !(match en.detail with | some d => validB d | none => false))) ∧
    (∀ (ds : List MatchRecord) (en : PlanEntry) (d : MatchRecord),
      en.detail = some d → validB d = false → dsStep ds en = ds) := by
  refine ⟨validate_ok_iff, ?_, ?_⟩
  · intro ds plan dry
    exact ⟨by rw [apply_snd_counts]; exact planCounts_additions plan,
           by rw [apply_snd_counts]; exact planCounts_skips plan⟩
  · intro ds en d hd hv
    rcases en with ⟨ex, s, cls, det⟩
    simp only at hd
    subst hd
    cases cls <;> simp [dsStep, hv]

/-- Witness for C6: one malformed record among ten New entries yields
nine additions and one skip. -/
theorem record_validator_witness :
    validate sampleFixture = .ok () ∧
    (RugbyData.apply []
        (List.replicate 9 (newEntry sampleFixture) ++ [newEntry invalidRecord])
        false).2.additions = 9 ∧
    (RugbyData.apply []
        (List.replicate 9 (newEntry sampleFixture) ++ [newEntry invalidRecord])
        false).2.skips = 1 :=
  ⟨(record_validator.1 sampleFixture).mpr
    ⟨by decide, by decide, by decide,
     fun s hs => by simp [sampleFixture] at hs,
     fun s hs => by simp [sampleFixture] at hs,
     fun a hath => by simp [sampleFixture] at hath,
     fun n hn => by simp [sampleFixture] at hn; omega⟩,
   by
     rw [(record_validator.2.1 []
       (List.replicate 9 (newEntry sampleFixture) ++ [newEntry invalidRecord]) false).1]
     decide,
   by
     rw [(record_validator.2.1 []
       (List.replicate 9 (newEntry sampleFixture) ++ [newEntry invalidRecord]) false).2]
     decide⟩

/-- C7: the identity key concatenates normalized date and the two team
names, home first, with a fixed separator; for separator-free records
two records are the same match exactly when their (date, home, away)
identity agrees, and records with identical identity fields are the same
match regardless of provider-internal ids. -/
theorem identity_resolver_contract :
    (∀ r1 r2 : MatchRecord, sepFree r1 → sepFree r2 →
      (sameMatch r1 r2 ↔ naturalKey r1 = naturalKey r2)) ∧
    (∀ r1 r2 : MatchRecord, normalizeDate r1.date = normalizeDate r2.date →
      r1.home_team = r2.home_team → r1.away_team = r2.away_team →
      sameMatch r1 r2) := by
  constructor
  · intro r1 r2 h1 h2
    exact identityKey_eq_iff r1 r2 h1 h2
  · intro r1 r2 e1 e2 e3
    unfold sameMatch identityKey identityKeyParts
    rw [e1, e2, e3]

/-- Witness for C7: the same fixture under a different provider id is
the same match. -/
theorem identity_resolver_contract_witness :
    sepFree sampleFixture ∧
    sameMatch sampleFixture { sampleFixture with provider_id := some 999 } :=
  ⟨by decide, identity_resolver_contract.2 sampleFixture
    { sampleFixture with provider_id := some 999 } rfl rfl rfl⟩

/-- C8: uniqueness of the natural key is an invariant of the Merge
Writer: a separator-free dataset with pairwise distinct natural keys
still has pairwise distinct natural keys after any plan is applied, in
dry-run or not, because New and ResultAdded entries are inserted or
replaced keyed by identity rather than appended. -/
theorem natural_key_unique_invariant (ds : List MatchRecord) (plan : List PlanEntry)
    (dry : Bool) (hsep : ∀ e ∈ ds, sepFree e)
    (hnat : (ds.map naturalKey).Nodup) :
    (((RugbyData.apply ds plan dry).1).map naturalKey).Nodup := by
  cases dry with
  | false =>
    have h1 : (RugbyData.apply ds plan false).1 = plan.foldl dsStep ds := by
      show (applyPlan ds plan).1 = _
      unfold applyPlan
      rw [foldl_applyEntry_fst]
    rw [h1]
    exact nodup_natural_of_nodup_keys _
      (nodup_keys_foldl plan ds (nodup_keys_of_nodup_natural ds hsep hnat))
  | true =>
    have h1 : (RugbyData.apply ds plan true).1 = ds := rfl
    rw [h1]
    exact hnat

/-- Witness for C8 on a two-record dataset and a one-entry plan. -/
theorem natural_key_unique_invariant_witness :
    (((RugbyData.apply [sampleFixture, sampleResult]
        [newEntry (fetchStub completedSummary)] false).1).map naturalKey).Nodup :=
  natural_key_unique_invariant [sampleFixture, sampleResult]
    [newEntry (fetchStub completedSummary)] false (by decide) (by decide)

/-- C9: a dataset record whose identity key is absent from the remote
listing is left untouched by the run: the lookup at its key is unchanged
and the record remains a member of the merged dataset. -/
theorem absent_summary_untouched (ds : List MatchRecord) (summaries : List MatchSummary)
    (fetch : MatchSummary → MatchRecord)
    (hfetch : ∀ s2, identityKey (fetch s2) = summaryKey s2)
    (e : MatchRecord) (he : e ∈ ds)
    (habs : identityKey e ∉ summaries.map summaryKey) :
    findByKey (runSync ds summaries fetch false).1 (identityKey e)
        = findByKey ds (identityKey e) ∧
      e ∈ (runSync ds summaries fetch false).1 := by
  have hne : ∀ en ∈ mkPlan ds summaries fetch, ∀ d, en.detail = some d →
      identityKey d ≠ identityKey e := by
    intro en hen d hd hcontr
    rcases mkPlan_detail_key ds summaries fetch hfetch en hen d hd with ⟨hk, _⟩
    apply habs
    rw [← hcontr, hk]
    rcases mem_mkPlan ds summaries fetch en hen with ⟨s, hs, hen2⟩
    have hsum : en.summary = s := by rw [hen2]
    rw [hsum]
    exact List.mem_map_of_mem _ hs
  rw [runSync_fst]
  exact ⟨findByKey_foldl_ne _ ds _ hne, mem_foldl_dsStep _ ds e he hne⟩

/-- Witness for C9: the Glasgow result is untouched by a run whose
listing only mentions the Leinster fixture. -/
theorem absent_summary_untouched_witness :
    findByKey (runSync [sampleResult] [completedSummary] fetchStub false).1
        (identityKey sampleResult) = findByKey [sampleResult] (identityKey sampleResult) ∧
      sampleResult ∈ (runSync [sampleResult] [completedSummary] fetchStub false).1 :=
  absent_summary_untouched [sampleResult] [completedSummary] fetchStub (fun _ => rfl)
    sampleResult (by decide) (by decide)

/-- C10: in renderMatchPredictorWidget the favourite is the home team
exactly when home_win_prob exceeds one half and the away team otherwise,
while the displayed percentage is the maximum of the two win
probabilities; hence when home_win_prob is at most one half yet exceeds
away_win_prob, the away team is shown as favoured together with the home
probability. -/
theorem match_predictor_favorite :
    (∀ p : Prediction, 1 / 2 < p.home_win_prob → favorite p = p.home_team) ∧
    (∀ p : Prediction, p.home_win_prob ≤ 1 / 2 → favorite p = p.away_team) ∧
    (∀ p : Prediction, winProb p = max p.home_win_prob p.away_win_prob) ∧
    (∀ p : Prediction, p.home_win_prob ≤ 1 / 2 → p.away_win_prob < p.home_win_prob →
      favorite p = p.away_team ∧ winProb p = p.home_win_prob) := by
  refine ⟨?_, ?_, ?_, ?_⟩
  · intro p h
    unfold favorite
    rw [if_pos h]
  · intro p h
    unfold favorite
    rw [if_neg (not_lt.mpr h)]
  · intro p
    rfl
  · intro p h1 h2
    refine ⟨?_, ?_⟩
    · unfold favorite
      rw [if_neg (not_lt.mpr h1)]
    · unfold winProb
      exact max_eq_left (le_of_lt h2)

/-- Witness for C10: a draw-heavy prediction shows the away team as
favoured with the home probability. -/
theorem match_predictor_favorite_witness :
    favorite ⟨"Leinster", "Munster", 45 / 100, 35 / 100, 20 / 100, 22, 19⟩ = "Munster" ∧
    winProb ⟨"Leinster", "Munster", 45 / 100, 35 / 100, 20 / 100, 22, 19⟩ = 45 / 100 :=
  match_predictor_favorite.2.2.2
    ⟨"Leinster", "Munster", 45 / 100, 35 / 100, 20 / 100, 22, 19⟩
    (by norm_num) (by norm_num)

end RugbyData
